import Mathlib

/-!
Shallow embedding of the `prometheus` metrics core (label pairs, fingerprinting,
counter families, the family registry and the text dump pipeline), translated
from `dump.go`, `counter.go`, `summary.go` and the registry source, together
with proofs settling the specification claims.

Conventions used throughout:
* Go `uint64` values (fingerprints) are `Nat` reduced `% 2 ^ 64` where overflow matters.
* Go `float64` metric values are modelled as `ℚ`; every claim exercises values on
  which float64 arithmetic is exact.
* Go panics are modelled as `Except Err` errors; a call that panics leaves the
  receiver unchanged, which the state-passing functions make explicit.
* `sort.Sort` is modelled as insertion sort with respect to the non-strict
  complement of the Go `Less` method; for a `Less` that is a strict weak order
  this agrees with every correct sorting algorithm.
-/

namespace ClientGolang

/-- A label: `labelPair` from dump.go, a (Name, Value) pair of strings. -/
structure labelPair where
  Name : String
  Value : String
deriving DecidableEq

/-- Go `<` on strings: byte-lexicographic comparison, which on UTF-8 data
coincides with the character-wise lexicographic order on the underlying
character sequence. -/
def strLtB (a b : String) : Bool := decide (a.data < b.data)

/-- `labelPair.Before` from dump.go: strict lexicographic comparison,
name first, then value (`l.Name > o.Name` is written `strLtB o.Name l.Name`). -/
def labelPair.Before (l o : labelPair) : Bool :=
  if strLtB l.Name o.Name then true
  else if strLtB o.Name l.Name then false
  else strLtB l.Value o.Value

/-- `labelPairs` from dump.go: an ordered sequence of labels. -/
abbrev labelPairs := List labelPair

/-- `labelPairs.Before` from dump.go: walks the receiver's positions and returns
true as soon as some position is pairwise `Before`; there is no early `false`
return when a position compares strictly greater.  (When the receiver is longer
than the argument the Go code would panic on the index; the development only
applies it at equal lengths.) -/
def pairsBefore : labelPairs → labelPairs → Bool
  | [], _ => false
  | _ :: _, [] => false
  | a :: l, b :: o => if a.Before b then true else pairsBefore l o

/-- UTF-8 encoding of one character as byte values; Go strings are UTF-8 and
`fmt.Fprint` of a string writes its bytes. -/
def utf8Bytes (c : Char) : List Nat :=
  let n := c.toNat
  if n < 0x80 then [n]
  else if n < 0x800 then
    [0xC0 ||| (n >>> 6), 0x80 ||| (n &&& 0x3F)]
  else if n < 0x10000 then
    [0xE0 ||| (n >>> 12), 0x80 ||| ((n >>> 6) &&& 0x3F), 0x80 ||| (n &&& 0x3F)]
  else
    [0xF0 ||| (n >>> 18), 0x80 ||| ((n >>> 12) &&& 0x3F),
      0x80 ||| ((n >>> 6) &&& 0x3F), 0x80 ||| (n &&& 0x3F)]

/-- The byte sequence of a string, as natural numbers below 256. -/
def strBytes (s : String) : List Nat :=
  s.data.foldr (fun c acc => utf8Bytes c ++ acc) []

/-- The 64-bit FNV prime of `hash/fnv`. -/
def fnvPrime : Nat := 1099511628211

/-- The 64-bit FNV-1a offset basis of `hash/fnv`. -/
def fnvOffsetBasis : Nat := 14695981039346656037

/-- One byte step of 64-bit FNV-1a: xor the byte in, multiply by the prime,
truncated to 64 bits. -/
def fnvStep (h b : Nat) : Nat := ((h ^^^ b) * fnvPrime) % (2 ^ 64)

/-- 64-bit FNV-1a digest of a byte sequence. -/
def fnv64a (bytes : List Nat) : Nat := bytes.foldl fnvStep fnvOffsetBasis

/-- `labelPairs.fingerprint` from dump.go: feed each pair's Name then Value, in
sequence order, into a streaming FNV-1a 64 hash, with no separator between or
within pairs. -/
def fingerprint (l : labelPairs) : Nat :=
  fnv64a (l.foldr (fun p acc => (strBytes p.Name ++ strBytes p.Value) ++ acc) [])

/-- The non-strict relation underlying `sort.Sort(labelPairs)`:
`pairLe a b` iff `b` is not strictly before `a`. -/
def pairLe (a b : labelPair) : Prop := labelPair.Before b a = false

instance : DecidableRel pairLe := fun _ _ => instDecidableEqBool _ _

/-- Model of `sort.IsSorted` on `labelPairs`: no adjacent strictly-descending pair. -/
def isSortedPairs : labelPairs → Bool
  | [] => true
  | [_] => true
  | a :: b :: t => !(labelPair.Before b a) && isSortedPairs (b :: t)

/-- The canonicalization step at the top of `Apply` (counter.go lines 63-65):
sort the accumulated pairs unless `sort.IsSorted` already holds. -/
def canonicalize (l : labelPairs) : labelPairs :=
  if isSortedPairs l then l else List.insertionSort pairLe l

/-- `labelPairs.String` from dump.go: comma-joined `name=value` renderings. -/
def labelPairsString (l : labelPairs) : String :=
  String.intercalate "," (l.map fun p => p.Name ++ "=" ++ p.Value)

/-- The panics of the source, by the spec's error taxonomy. -/
inductive Err where
  | config
  | argument
  | validation
  | invariant
  | outOfRange
deriving DecidableEq

/-- Association-list model of a Go `map[uint64]int` (fingerprint to position). -/
abbrev fpMap := List (Nat × Nat)

/-- Go map read `m[k]` with presence flag. -/
def mapLookup (m : fpMap) (k : Nat) : Option Nat :=
  (List.find? (fun p => p.1 == k) m).map (·.2)

/-- Go `delete(m, k)`. -/
def mapDrop (m : fpMap) (k : Nat) : fpMap :=
  List.filter (fun p => !(p.1 == k)) m

/-- Go map write `m[k] = v`. -/
def mapStore (m : fpMap) (k v : Nat) : fpMap :=
  (k, v) :: mapDrop m k

/-- `counter` from counter.go.  `uid` is not a source field: it models the
identity of the Go heap allocation, so that pointer identity (as opposed to
mere value equality) is expressible.  `Value` models the `float64` field. -/
structure counter where
  Labels : labelPairs
  Value : ℚ
  fingerprint : Nat
  uid : Nat
deriving DecidableEq

/-- `counterChildren.Less`, complemented to the non-strict relation used to
model `sort.Sort(f.children)`: `c[i].Before(c[j])` is `Labels.Before`. -/
def counterLe (a b : counter) : Prop := pairsBefore b.Labels a.Labels = false

instance : DecidableRel counterLe := fun _ _ => instDecidableEqBool _ _

/-- `counterFamily` from counter.go, with the relevant `CounterOptions` fields
(`Dimensions`, `DefaultValue`, `Help`) inlined.  `nextUid` is the allocation
counter backing `counter.uid` and is not a source field. -/
structure counterFamily where
  children : List counter
  childrenSet : fpMap
  Dimensions : List String
  DefaultValue : ℚ
  name : String
  Help : String
  fp : Nat
  nextUid : Nat
deriving DecidableEq

/-- `MetricOptions` from summary.go (lines 390-403). -/
structure MetricOptions where
  Name : String
  Subsystem : String
  Namespace : String
  Dimensions : List String
  Help : String
deriving DecidableEq

/-- `MetricOptions.deriveName` (summary.go lines 405-416): compose namespace,
subsystem and name with underscores, omitting absent components. -/
def MetricOptions.deriveName (o : MetricOptions) : String :=
  if o.Namespace ≠ "" ∧ o.Subsystem ≠ "" then
    o.Namespace ++ "_" ++ o.Subsystem ++ "_" ++ o.Name
  else if o.Namespace ≠ "" then o.Namespace ++ "_" ++ o.Name
  else if o.Subsystem ≠ "" then o.Subsystem ++ "_" ++ o.Name
  else o.Name

/-- `MetricOptions.validate` (summary.go lines 418-425): empty Name or Help is
a fatal configuration error. -/
def MetricOptions.validateOpts (o : MetricOptions) : Except Err Unit :=
  if o.Name = "" then .error .config
  else if o.Help = "" then .error .config
  else .ok ()

/-- `CounterOptions` from counter.go: `MetricOptions` plus the reset target. -/
structure CounterOptions where
  metric : MetricOptions
  DefaultValue : ℚ
deriving DecidableEq

/-- The family value constructed by `NewCounterFamily` (counter.go 216-228).
Note that the constructor assigns `name`, `options` and `childrenSet` only:
the `fp` field is never written anywhere in the source and keeps Go's zero
value `0`.  The source also registers the new family into the process-wide
default registry; registration is modelled separately by
`registry.registerFam` on the family's `regView`. -/
def newCounterFamily (o : CounterOptions) : Except Err counterFamily :=
  match o.metric.validateOpts with
  | .error e => .error e
  | .ok _ => .ok
      { children := []
        childrenSet := []
        Dimensions := o.metric.Dimensions
        DefaultValue := o.DefaultValue
        name := o.metric.deriveName
        Help := o.metric.Help
        fp := 0
        nextUid := 0 }

/-- The scan loop of `counterPartial.validate` (counter.go 50-56): each pair's
name must still be in the unaccounted-for dimension set, which then loses it.
The Go set `map[string]bool` built from `Dimensions` is modelled as the nodup
list `Dimensions.dedup`; `List.erase` on a nodup list models `delete`. -/
def dimsScan : labelPairs → List String → Except Err Unit
  | [], _ => .ok ()
  | p :: rest, s => if p.Name ∈ s then dimsScan rest (s.erase p.Name) else .error .validation

/-- `counterPartial.validate` (counter.go 40-57): the label count must equal the
declared dimension count, and every label name must account for a distinct
declared dimension. -/
def validateDims (labels : labelPairs) (dims : List String) : Except Err Unit :=
  if labels.length ≠ dims.length then .error .validation
  else dimsScan labels dims.dedup

/-- `counterFamily.find` (counter.go 310-320): index lookup, then a read of
`f.children[index]`, which panics when the stored position is out of range. -/
def counterFamily.find (f : counterFamily) (fp : Nat) : Except Err (Option counter) :=
  match mapLookup f.childrenSet fp with
  | none => .ok none
  | some i =>
    match f.children[i]? with
    | some c => .ok (some c)
    | none => .error .outOfRange

/-- `counterFamily.register` (counter.go 322-333): append the child, re-sort the
whole sequence, then write each child's position into the existing index map
(the map is not cleared first). -/
def counterFamily.registerChild (f : counterFamily) (c : counter) : counterFamily :=
  let children := List.insertionSort counterLe (f.children ++ [c])
  { f with
    children := children
    childrenSet := children.enum.foldl (fun m p => mapStore m p.2.fingerprint p.1) f.childrenSet }

/-- `counterPartial.Apply` (counter.go 59-84) as a state-passing function of the
accumulated labels and the parent family: canonicalize, fingerprint, return an
existing child on an index hit (no validation on that path), otherwise
validate, construct the child with the family's default value and register it. -/
def applyCounter (labels : labelPairs) (f : counterFamily) : Except Err (counter × counterFamily) :=
  match f.find (fingerprint (canonicalize labels)) with
  | .error e => .error e
  | .ok (some c) => .ok (c, f)
  | .ok none =>
    match validateDims (canonicalize labels) f.Dimensions with
    | .error e => .error e
    | .ok _ =>
      .ok ({ Labels := canonicalize labels, Value := f.DefaultValue,
             fingerprint := fingerprint (canonicalize labels), uid := f.nextUid },
           counterFamily.registerChild { f with nextUid := f.nextUid + 1 }
             { Labels := canonicalize labels, Value := f.DefaultValue,
               fingerprint := fingerprint (canonicalize labels), uid := f.nextUid })

/-- The family state as observed after an `Apply` call: a panicking call leaves
the family untouched, because nothing is mutated before the panicking step. -/
def applyState (labels : labelPairs) (f : counterFamily) : counterFamily :=
  match applyCounter labels f with
  | .ok (_, f2) => f2
  | .error _ => f

/-- The child constructed on the miss path of `Apply` (counter.go 74-79):
canonical labels, the family default value, the computed fingerprint, and the
next allocation identity. -/
def newChildOf (L : labelPairs) (f : counterFamily) : counter :=
  { Labels := canonicalize L, Value := f.DefaultValue,
    fingerprint := fingerprint (canonicalize L), uid := f.nextUid }

/-- The family state produced by the miss path of `Apply`: the new child
registered into the family. -/
def familyAfterMiss (L : labelPairs) (f : counterFamily) : counterFamily :=
  counterFamily.registerChild { f with nextUid := f.nextUid + 1 } (newChildOf L f)

/-- `counterFamily.forget` (counter.go 287-308), translated with its boundary
arithmetic intact: delete the fingerprint from the index, then splice the
children sequence, special-casing the first and last positions (Go tries
`case 0` before `case len-1`).  `f.children[:index-1]` is `take (index - 1)`
and `f.children[index+1:]` is `drop (index + 1)`.  No surviving index entry is
renumbered. -/
def counterFamily.forget (f : counterFamily) (fp : Nat) : Except Err counterFamily :=
  match mapLookup f.childrenSet fp with
  | none => .error .invariant
  | some index =>
    let m := mapDrop f.childrenSet fp
    let children :=
      if index = 0 then f.children.drop 1
      else if index = f.children.length - 1 then f.children.take (index - 1)
      else f.children.take (index - 1) ++ f.children.drop (index + 1)
    .ok { f with childrenSet := m, children := children }

/-- `counterFamily.ForgetAll` (counter.go 270-276): clear children and index. -/
def counterFamily.forgetAllChildren (f : counterFamily) : counterFamily :=
  { f with children := [], childrenSet := [] }

/-- `counter.IncrementBy` (counter.go 158-163). -/
def counter.incrementBy (c : counter) (v : ℚ) : counter :=
  { c with Value := c.Value + v }

/-- A mutation through a child's pointer is visible in the family's children
slice; modelled by rewriting the child carrying the mutated allocation's uid. -/
def counterFamily.mutate (f : counterFamily) (u : Nat) (g : counter → counter) : counterFamily :=
  { f with children := f.children.map fun c => if c.uid = u then g c else c }

/-- Left-pad a natural number to six decimal digits. -/
def pad6 (n : Nat) : String :=
  let s := Nat.repr n
  String.mk (List.replicate (6 - s.length) '0') ++ s

/-- Model of Go's `%f` formatting of a float64 (six decimals, rounded to
nearest; Go breaks exact ties to even, which no claim exercises). -/
def formatFixed6 (q : ℚ) : String :=
  let mag : Nat := q.num.natAbs
  let scaled : Nat := (2 * mag * 1000000 + q.den) / (2 * q.den)
  (if q.num < 0 then "-" else "") ++ Nat.repr (scaled / 1000000) ++ "." ++ pad6 (scaled % 1000000)

/-- `counter.asText` (counter.go 205-210): `{<labels>}: <value %f>`. -/
def counter.asText (c : counter) : String :=
  "\x7b" ++ labelPairsString c.Labels ++ "\x7d: " ++ formatFixed6 c.Value

/-- `counterFamily.dumpText` (counter.go 375-387): for each child in sequence
order, write `<family name><child asText>` and a newline. -/
def counterFamily.dumpTextStr (f : counterFamily) : String :=
  f.children.foldl (fun acc c => acc ++ f.name ++ c.asText ++ "\n") ""

/-- The pair-building loop shared by `NewChild` and `With` (counter.go 99-113,
335-352): consecutive strings are grouped into (name, value) pairs. -/
def chunkPairs : List String → labelPairs
  | n :: v :: rest => ⟨n, v⟩ :: chunkPairs rest
  | _ => []

/-- `counterFamily.NewChild` (counter.go 335-352): an odd number of label
strings is a fatal argument error, otherwise the builder starts from the
chunked pairs. -/
def newChildPairs (labels : List String) : Except Err labelPairs :=
  if labels.length % 2 ≠ 0 then .error .argument
  else .ok (chunkPairs labels)

/-- The registry-level view of a family: what the `Family` interface exposes to
`registry.register`, namely `familyName()` and `fingerprint()`. -/
structure regFamily where
  name : String
  fp : Nat
deriving DecidableEq

/-- `counterFamily.familyName`/`counterFamily.fingerprint` (counter.go 262-268)
bundled as the registry-level view of the family. -/
def counterFamily.regView (f : counterFamily) : regFamily := ⟨f.name, f.fp⟩

/-- `families.Less` complemented to the non-strict relation used to model
`sort.Sort(r.families)`: comparison of display names. -/
def famLe (a b : regFamily) : Prop := ¬ b.name < a.name

instance : DecidableRel famLe := fun _ _ => instDecidableNot

/-- `registry` from the registry source: sequence of families plus the
fingerprint-to-position index. -/
structure registry where
  families : List regFamily
  familiesSet : fpMap
deriving DecidableEq

/-- `newRegistry`: empty family sequence and index. -/
def newRegistry : registry := ⟨[], []⟩

/-- `registry.register` (registry source lines 17-33): panic when the family's
fingerprint is already indexed, otherwise append, re-sort by display name and
write every family's position into the index. -/
def registry.registerFam (r : registry) (f : regFamily) : Except Err registry :=
  match mapLookup r.familiesSet f.fp with
  | some _ => .error .invariant
  | none =>
    let fams := List.insertionSort famLe (r.families ++ [f])
    .ok { families := fams
          familiesSet := fams.enum.foldl (fun m p => mapStore m p.2.fp p.1) r.familiesSet }

/-- The registry state as observed after a `register` call: a panicking call
leaves the registry untouched. -/
def registerState (r : registry) (f : regFamily) : registry :=
  match r.registerFam f with
  | .ok r2 => r2
  | .error _ => r

/-! ### Concrete scenario states used by the claims -/

/-- A counter family over the single dimension `a` (derived name `n`, default
value 0), exactly as `NewCounterFamily` builds it. -/
def famA : counterFamily :=
  { children := [], childrenSet := [], Dimensions := ["a"], DefaultValue := 0,
    name := "n", Help := "h", fp := 0, nextUid := 0 }

/-- `famA` after applying the label set `a=1`. -/
def stA1 : counterFamily := applyState [⟨"a", "1"⟩] famA

/-- `famA` after applying `a=1` and then `a=2`: two children in sorted order. -/
def stA2 : counterFamily := applyState [⟨"a", "2"⟩] stA1

/-- The fingerprint of the canonical label set `a=1`. -/
def fpA1 : Nat := fingerprint (canonicalize [⟨"a", "1"⟩])

/-- The fingerprint of the canonical label set `a=2`. -/
def fpA2 : Nat := fingerprint (canonicalize [⟨"a", "2"⟩])

/-- `famA` after applying the label set `a=z`: a family holding one child. -/
def stPre : counterFamily := applyState [⟨"a", "z"⟩] famA

/-- `stPre` after additionally applying the label set `a=x`: two children. -/
def stPre1 : counterFamily := applyState [⟨"a", "x"⟩] stPre

/-- A counter family over the dimensions `a`, `b`. -/
def famW : counterFamily :=
  { children := [], childrenSet := [], Dimensions := ["a", "b"], DefaultValue := 0,
    name := "w", Help := "h", fp := 0, nextUid := 0 }

/-- The options of the text-dump scenario: name `requests`, dimension `method`,
default value 0. -/
def optsR : CounterOptions := ⟨⟨"requests", "", "", ["method"], "h"⟩, 0⟩

/-- The family built by `NewCounterFamily optsR`. -/
def famR : counterFamily :=
  { children := [], childrenSet := [], Dimensions := ["method"], DefaultValue := 0,
    name := "requests", Help := "h", fp := 0, nextUid := 0 }

/-- The child created by applying `method=GET` on `famR`. -/
def cR : counter := newChildOf [⟨"method", "GET"⟩] famR

/-- `famR` after registering the child `method=GET`. -/
def famR1 : counterFamily := familyAfterMiss [⟨"method", "GET"⟩] famR

/-- `famR1` after `cR.IncrementBy(5)` through the child's pointer. -/
def famR2 : counterFamily := famR1.mutate cR.uid (fun x => x.incrementBy 5)

/-- A counter family over the single dimension `ab`. -/
def famAB : counterFamily :=
  { children := [], childrenSet := [], Dimensions := ["ab"], DefaultValue := 0,
    name := "n", Help := "h", fp := 0, nextUid := 0 }

/-- Options with Namespace `a` and Name `b` (derived name `a_b`). -/
def optsNs : CounterOptions := ⟨⟨"b", "", "a", [], "h"⟩, 0⟩

/-- Options with Subsystem `a` and Name `b` (derived name `a_b` as well). -/
def optsSub : CounterOptions := ⟨⟨"b", "a", "", [], "h"⟩, 0⟩

/-- The family built by `NewCounterFamily optsNs`. -/
def famNsVal : counterFamily :=
  { children := [], childrenSet := [], Dimensions := [], DefaultValue := 0,
    name := "a_b", Help := "h", fp := 0, nextUid := 0 }

/-- The registry after registering `famNsVal` into a fresh registry. -/
def regVal : registry := registerState newRegistry famNsVal.regView

/-! ### Properties of the label-pair ordering and of canonicalization -/

theorem strLtB_eq_true_iff (a b : String) : strLtB a b = true ↔ a < b := by
  rw [String.lt_iff_toList_lt]
  exact decide_eq_true_iff

theorem strLtB_eq_false_iff (a b : String) : strLtB a b = false ↔ ¬ a < b := by
  rw [← strLtB_eq_true_iff, Bool.not_eq_true]

theorem pairLe_iff (a b : labelPair) :
    pairLe a b ↔ a.Name < b.Name ∨ (a.Name = b.Name ∧ a.Value ≤ b.Value) := by
  unfold pairLe labelPair.Before
  rcases lt_trichotomy a.Name b.Name with h | h | h
  · rw [(strLtB_eq_false_iff b.Name a.Name).mpr (asymm h),
      (strLtB_eq_true_iff a.Name b.Name).mpr h]
    simp [h]
  · rw [(strLtB_eq_false_iff b.Name a.Name).mpr (h ▸ lt_irrefl a.Name),
      (strLtB_eq_false_iff a.Name b.Name).mpr (h ▸ lt_irrefl a.Name)]
    simp [h, strLtB_eq_false_iff, not_lt]
  · rw [(strLtB_eq_true_iff b.Name a.Name).mpr h]
    simp [asymm h, ne_of_gt h]

instance : IsTrans labelPair pairLe := by
  refine ⟨fun a b c hab hbc => ?_⟩
  rw [pairLe_iff] at hab hbc ⊢
  rcases hab with h₁ | ⟨h₁, v₁⟩ <;> rcases hbc with h₂ | ⟨h₂, v₂⟩
  · exact Or.inl (h₁.trans h₂)
  · exact Or.inl (h₂ ▸ h₁)
  · exact Or.inl (h₁ ▸ h₂)
  · exact Or.inr ⟨h₁.trans h₂, v₁.trans v₂⟩

instance : IsTotal labelPair pairLe := by
  refine ⟨fun a b => ?_⟩
  rw [pairLe_iff, pairLe_iff]
  rcases lt_trichotomy a.Name b.Name with h | h | h
  · exact Or.inl (Or.inl h)
  · rcases le_total a.Value b.Value with hv | hv
    · exact Or.inl (Or.inr ⟨h, hv⟩)
    · exact Or.inr (Or.inr ⟨h.symm, hv⟩)
  · exact Or.inr (Or.inl h)

instance : IsAntisymm labelPair pairLe := by
  refine ⟨fun a b hab hba => ?_⟩
  rw [pairLe_iff] at hab hba
  rcases hab with h₁ | ⟨h₁, v₁⟩
  · rcases hba with h₂ | ⟨h₂, _⟩
    · exact absurd h₂ (asymm h₁)
    · exact absurd h₂.symm (ne_of_lt h₁)
  · rcases hba with h₂ | ⟨_, v₂⟩
    · exact absurd h₁.symm (ne_of_lt h₂)
    · cases a; cases b
      simp only [labelPair.mk.injEq]
      exact ⟨h₁, le_antisymm v₁ v₂⟩

theorem sorted_of_isSortedPairs :
    ∀ l : labelPairs, isSortedPairs l = true → List.Sorted pairLe l
  | [], _ => List.sorted_nil
  | [a], _ => List.sorted_singleton a
  | a :: b :: t, h => by
    unfold isSortedPairs at h
    rw [Bool.and_eq_true, Bool.not_eq_true'] at h
    have hab : pairLe a b := h.1
    have hs := sorted_of_isSortedPairs (b :: t) h.2
    rw [List.sorted_cons]
    refine ⟨fun x hx => ?_, hs⟩
    rcases List.mem_cons.mp hx with rfl | hx
    · exact hab
    · exact IsTrans.trans (r := pairLe) a b x hab (List.rel_of_sorted_cons hs x hx)

theorem canonicalize_eq (l : labelPairs) :
    canonicalize l = List.insertionSort pairLe l := by
  unfold canonicalize
  split
  · next h => exact ((sorted_of_isSortedPairs l h).insertionSort_eq).symm
  · rfl

theorem canonicalize_perm (l : labelPairs) : List.Perm (canonicalize l) l := by
  rw [canonicalize_eq]
  exact List.perm_insertionSort pairLe l

theorem canonicalize_of_perm {l₁ l₂ : labelPairs} (h : List.Perm l₁ l₂) :
    canonicalize l₁ = canonicalize l₂ := by
  rw [canonicalize_eq, canonicalize_eq]
  exact List.eq_of_perm_of_sorted
    ((List.perm_insertionSort pairLe l₁).trans (h.trans (List.perm_insertionSort pairLe l₂).symm))
    (List.sorted_insertionSort pairLe l₁) (List.sorted_insertionSort pairLe l₂)

/-! ### Properties of dimension validation -/

theorem dimsScan_ok_of_subset :
    ∀ (labels : labelPairs) (s : List String), s.Nodup →
      (labels.map labelPair.Name).Nodup →
      (∀ p ∈ labels, p.Name ∈ s) → dimsScan labels s = .ok ()
  | [], _, _, _, _ => rfl
  | p :: rest, s, hs, hnd, hmem => by
    unfold dimsScan
    rw [if_pos (hmem p (List.mem_cons_self p rest))]
    rw [List.map_cons, List.nodup_cons] at hnd
    refine dimsScan_ok_of_subset rest (s.erase p.Name) (hs.erase _) hnd.2 fun q hq => ?_
    have hqs := hmem q (List.mem_cons_of_mem _ hq)
    have hne : q.Name ≠ p.Name := fun he =>
      hnd.1 (he ▸ List.mem_map_of_mem labelPair.Name hq)
    exact (List.mem_erase_of_ne hne).mpr hqs

theorem dimsScan_err_of_out :
    ∀ (labels : labelPairs) (s : List String),
      (∃ p ∈ labels, p.Name ∉ s) → dimsScan labels s = .error .validation
  | [], _, h => by
    rcases h with ⟨p, hp, _⟩
    cases hp
  | p :: rest, s, h => by
    unfold dimsScan
    by_cases hp : p.Name ∈ s
    · rw [if_pos hp]
      refine dimsScan_err_of_out rest _ ?_
      rcases h with ⟨q, hq, hqs⟩
      rcases List.mem_cons.mp hq with rfl | hq'
      · exact absurd hp hqs
      · exact ⟨q, hq', fun hmem => hqs (List.mem_of_mem_erase hmem)⟩
    · rw [if_neg hp]

theorem dimsScan_ok_or :
    ∀ (labels : labelPairs) (s : List String),
      dimsScan labels s = .ok () ∨ dimsScan labels s = .error .validation
  | [], _ => Or.inl rfl
  | p :: rest, s => by
    unfold dimsScan
    by_cases hp : p.Name ∈ s
    · rw [if_pos hp]
      exact dimsScan_ok_or rest _
    · rw [if_neg hp]
      exact Or.inr rfl

theorem dimsScan_ok_names :
    ∀ (labels : labelPairs) (s : List String), dimsScan labels s = .ok () → s.Nodup →
      (labels.map labelPair.Name).Nodup ∧ ∀ n ∈ labels.map labelPair.Name, n ∈ s
  | [], _, _, _ => ⟨List.nodup_nil, by simp⟩
  | p :: rest, s, h, hs => by
    unfold dimsScan at h
    by_cases hp : p.Name ∈ s
    · rw [if_pos hp] at h
      obtain ⟨hnd, hsub⟩ := dimsScan_ok_names rest (s.erase p.Name) h (hs.erase _)
      refine ⟨?_, fun n hn => ?_⟩
      · rw [List.map_cons, List.nodup_cons]
        refine ⟨fun hm => ?_, hnd⟩
        have hmem := hsub _ hm
        rw [hs.erase_eq_filter p.Name, List.mem_filter] at hmem
        simpa using hmem.2
      · rw [List.map_cons] at hn
        rcases List.mem_cons.mp hn with rfl | hn'
        · exact hp
        · exact List.mem_of_mem_erase (hsub _ hn')
    · rw [if_neg hp] at h
      cases h

theorem validateDims_err_of_defect (labels : labelPairs) (dims : List String)
    (h : labels.length ≠ dims.length ∨ (∃ p ∈ labels, p.Name ∉ dims) ∨
      (∃ d ∈ dims, ∀ p ∈ labels, p.Name ≠ d)) :
    validateDims labels dims = .error .validation := by
  unfold validateDims
  by_cases hlen : labels.length ≠ dims.length
  · rw [if_pos hlen]
  · rw [if_neg hlen]
    rw [not_not] at hlen
    rcases h with h | h | h
    · exact absurd hlen h
    · refine dimsScan_err_of_out labels _ ?_
      rcases h with ⟨p, hp, hpn⟩
      exact ⟨p, hp, fun hm => hpn (List.mem_dedup.mp hm)⟩
    · rcases dimsScan_ok_or labels dims.dedup with hok | herr
      · exfalso
        rcases h with ⟨d, hd, hdn⟩
        obtain ⟨hnd, hsub⟩ := dimsScan_ok_names labels dims.dedup hok (List.nodup_dedup dims)
        have hsubF : (labels.map labelPair.Name).toFinset ⊆ dims.toFinset := fun n hn => by
          rw [List.mem_toFinset] at hn ⊢
          exact List.mem_dedup.mp (hsub n hn)
        have hcard : dims.toFinset.card ≤ (labels.map labelPair.Name).toFinset.card := by
          have h1 : (labels.map labelPair.Name).toFinset.card = labels.length := by
            rw [List.toFinset_card_of_nodup hnd, List.length_map]
          have h2 : dims.toFinset.card ≤ dims.length := List.toFinset_card_le dims
          omega
        have heq := Finset.eq_of_subset_of_card_le hsubF hcard
        have hdN : d ∈ labels.map labelPair.Name := by
          have : d ∈ (labels.map labelPair.Name).toFinset := heq ▸ List.mem_toFinset.mpr hd
          exact List.mem_toFinset.mp this
        rcases List.mem_map.mp hdN with ⟨p, hp, hpd⟩
        exact hdn p hp hpd
      · exact herr

theorem dimsScan_err_code :
    ∀ (labels : labelPairs) (s : List String) (e : Err),
      dimsScan labels s = .error e → e = .validation := by
  intro labels s e h
  rcases dimsScan_ok_or labels s with hok | herr
  · rw [hok] at h
    cases h
  · rw [herr] at h
    injection h with h
    exact h.symm

/-! ### Properties of the fingerprint-to-position maps -/

theorem mapLookup_store_self (m : fpMap) (k v : Nat) :
    mapLookup (mapStore m k v) k = some v := by
  simp [mapLookup, mapStore, List.find?]

theorem mapLookup_drop_ne (k k' : Nat) (h : k' ≠ k) :
    ∀ m : fpMap, mapLookup (mapDrop m k) k' = mapLookup m k'
  | [] => rfl
  | (a, b) :: m => by
    have ih := mapLookup_drop_ne k k' h m
    by_cases ha : a = k
    · subst ha
      have h2 : (a == k') = false := by
        simp only [beq_eq_false_iff_ne]
        exact fun e => h e.symm
      have hd : mapDrop ((a, b) :: m) a = mapDrop m a := by
        simp [mapDrop, List.filter_cons]
      rw [hd, ih]
      simp [mapLookup, List.find?_cons, h2]
    · have h1 : (a == k) = false := by
        simp only [beq_eq_false_iff_ne]
        exact ha
      have hd : mapDrop ((a, b) :: m) k = (a, b) :: mapDrop m k := by
        simp [mapDrop, List.filter_cons, h1]
      rw [hd]
      by_cases hak : a = k'
      · subst hak
        simp [mapLookup, List.find?_cons]
      · have h2 : (a == k') = false := by
          simp only [beq_eq_false_iff_ne]
          exact hak
        simp only [mapLookup, List.find?_cons, h2]
        exact ih

theorem mapLookup_store_ne (m : fpMap) (k v k' : Nat) (h : k' ≠ k) :
    mapLookup (mapStore m k v) k' = mapLookup m k' := by
  have hk : (k == k') = false := by
    simp only [beq_eq_false_iff_ne]
    exact fun e => h e.symm
  simp only [mapStore, mapLookup, List.find?_cons, hk]
  exact mapLookup_drop_ne k k' h m

theorem foldStore_isSome_mono (ps : List (Nat × regFamily)) :
    ∀ (m : fpMap) (k : Nat), (mapLookup m k).isSome →
      (mapLookup (ps.foldl (fun m p => mapStore m p.2.fp p.1) m) k).isSome := by
  induction ps with
  | nil => exact fun m k h => h
  | cons p ps ih =>
    intro m k h
    refine ih _ _ ?_
    by_cases hk : k = p.2.fp
    · subst hk
      rw [mapLookup_store_self]
      rfl
    · rw [mapLookup_store_ne _ _ _ _ hk]
      exact h

theorem foldStore_isSome_of_mem (ps : List (Nat × regFamily)) :
    ∀ (m : fpMap) (k : Nat), (∃ p ∈ ps, p.2.fp = k) →
      (mapLookup (ps.foldl (fun m p => mapStore m p.2.fp p.1) m) k).isSome := by
  induction ps with
  | nil =>
    rintro m k ⟨p, hp, _⟩
    cases hp
  | cons q ps ih =>
    rintro m k ⟨p, hp, hk⟩
    rcases List.mem_cons.mp hp with rfl | hp'
    · refine foldStore_isSome_mono ps _ _ ?_
      rw [← hk, mapLookup_store_self]
      rfl
    · exact ih _ _ ⟨p, hp', hk⟩

theorem exists_enumFrom_entry {α : Type _} :
    ∀ (l : List α) (a : α) (n : Nat), a ∈ l → ∃ i, (i, a) ∈ l.enumFrom n
  | [], _, _, h => absurd h (List.not_mem_nil _)
  | b :: l, a, n, h => by
    rcases List.mem_cons.mp h with rfl | h'
    · exact ⟨n, List.mem_cons_self _ _⟩
    · obtain ⟨i, hi⟩ := exists_enumFrom_entry l a (n + 1) h'
      exact ⟨i, List.mem_cons_of_mem _ hi⟩

/-! ### Unfolding lemmas for Apply and register -/

theorem find_of_lookup_none {f : counterFamily} {fp : Nat}
    (h : mapLookup f.childrenSet fp = none) : f.find fp = .ok none := by
  unfold counterFamily.find
  rw [h]

theorem applyCounter_hit {L : labelPairs} {f : counterFamily} {c : counter}
    (hfind : f.find (fingerprint (canonicalize L)) = .ok (some c)) :
    applyCounter L f = .ok (c, f) := by
  unfold applyCounter
  rw [hfind]

theorem applyCounter_miss {L : labelPairs} {f : counterFamily}
    (hfind : f.find (fingerprint (canonicalize L)) = .ok none)
    (hvd : validateDims (canonicalize L) f.Dimensions = .ok ()) :
    applyCounter L f = .ok (newChildOf L f, familyAfterMiss L f) := by
  unfold applyCounter
  rw [hfind, hvd]
  rfl

theorem applyCounter_validation_err {L : labelPairs} {f : counterFamily}
    (hfind : f.find (fingerprint (canonicalize L)) = .ok none)
    (hvd : validateDims (canonicalize L) f.Dimensions = .error .validation) :
    applyCounter L f = .error .validation := by
  unfold applyCounter
  rw [hfind, hvd]

theorem newCounterFamily_fp {o : CounterOptions} {f : counterFamily}
    (h : newCounterFamily o = .ok f) : f.fp = 0 := by
  unfold newCounterFamily at h
  cases hv : o.metric.validateOpts with
  | error e =>
    rw [hv] at h
    cases h
  | ok u =>
    rw [hv] at h
    injection h with h
    rw [← h]

theorem registerFam_ok {r : registry} {f : regFamily} {r' : registry}
    (h : r.registerFam f = .ok r') :
    mapLookup r.familiesSet f.fp = none ∧
      r'.families = List.insertionSort famLe (r.families ++ [f]) ∧
      r'.familiesSet = (List.insertionSort famLe (r.families ++ [f])).enum.foldl
        (fun m p => mapStore m p.2.fp p.1) r.familiesSet := by
  unfold registry.registerFam at h
  cases hlk : mapLookup r.familiesSet f.fp with
  | some v =>
    rw [hlk] at h
    cases h
  | none =>
    rw [hlk] at h
    injection h with h
    rw [← h]
    exact ⟨rfl, rfl, rfl⟩

theorem validateDims_ok {labels : labelPairs} {dims : List String}
    (hlen : labels.length = dims.length)
    (hnd : (labels.map labelPair.Name).Nodup)
    (hsub : ∀ p ∈ labels, p.Name ∈ dims) :
    validateDims labels dims = .ok () := by
  unfold validateDims
  rw [if_neg (not_not_intro hlen)]
  refine dimsScan_ok_of_subset _ _ (List.nodup_dedup _) hnd fun p hp =>
    List.mem_dedup.mpr (hsub p hp)

/-! ### The shape of the text dump -/

theorem strFoldl_append (l : List String) :
    ∀ a b : String, l.foldl (· ++ ·) (a ++ b) = a ++ l.foldl (· ++ ·) b := by
  induction l with
  | nil => intro a b; rfl
  | cons x xs ih =>
    intro a b
    simp only [List.foldl_cons]
    rw [String.append_assoc, ih]

theorem strJoin_cons (s : String) (l : List String) :
    String.join (s :: l) = s ++ String.join l := by
  show l.foldl (· ++ ·) ("" ++ s) = s ++ l.foldl (· ++ ·) ""
  rw [String.empty_append]
  have h := strFoldl_append l s ""
  rw [String.append_empty] at h
  exact h

theorem dumpTextLoop_join (f : counterFamily) :
    ∀ (l : List counter) (acc : String),
      l.foldl (fun acc c => acc ++ f.name ++ c.asText ++ "\n") acc =
        acc ++ String.join (l.map fun c =>
          f.name ++ "\x7b" ++ labelPairsString c.Labels ++ "\x7d: " ++
            formatFixed6 c.Value ++ "\n") := by
  intro l
  induction l with
  | nil =>
    intro acc
    simp [String.join]
  | cons c t ih =>
    intro acc
    rw [List.foldl_cons, List.map_cons, strJoin_cons, ih]
    simp only [counter.asText, String.append_assoc]

theorem dumpTextStr_lines (f : counterFamily) :
    counterFamily.dumpTextStr f =
      String.join (f.children.map fun c =>
        f.name ++ "\x7b" ++ labelPairsString c.Labels ++ "\x7d: " ++
          formatFixed6 c.Value ++ "\n") := by
  unfold counterFamily.dumpTextStr
  rw [dumpTextLoop_join, String.empty_append]

/-! ### The claims -/

/-- C3: for every label set and every permutation of it, canonicalizing
(sorting) and then fingerprinting yields the same 64-bit fingerprint. -/
theorem claim3_fingerprint_perm_invariant (l₁ l₂ : labelPairs) (h : List.Perm l₁ l₂) :
    fingerprint (canonicalize l₁) = fingerprint (canonicalize l₂) := by
  rw [canonicalize_of_perm h]

/-- C3 witness: a concrete two-label set and its transposition. -/
theorem claim3_witness :
    List.Perm ([⟨"b", "2"⟩, ⟨"a", "1"⟩] : labelPairs) [⟨"a", "1"⟩, ⟨"b", "2"⟩] ∧
      fingerprint (canonicalize [⟨"b", "2"⟩, ⟨"a", "1"⟩]) =
        fingerprint (canonicalize [⟨"a", "1"⟩, ⟨"b", "2"⟩]) :=
  ⟨List.Perm.swap (⟨"a", "1"⟩ : labelPair) ⟨"b", "2"⟩ [],
    claim3_fingerprint_perm_invariant _ _ (List.Perm.swap (⟨"a", "1"⟩ : labelPair) ⟨"b", "2"⟩ [])⟩

/-- C7: applying a label set whose fingerprint is absent from the family index
and which misses a declared dimension, contains an undeclared dimension name,
or has the wrong number of pairs, panics with a ValidationError and leaves the
family (children and index) unchanged. -/
theorem claim7_validation_failure (f : counterFamily) (L : labelPairs)
    (habsent : mapLookup f.childrenSet (fingerprint (canonicalize L)) = none)
    (hdef : L.length ≠ f.Dimensions.length ∨ (∃ p ∈ L, p.Name ∉ f.Dimensions) ∨
      (∃ d ∈ f.Dimensions, ∀ p ∈ L, p.Name ≠ d)) :
    applyCounter L f = .error Err.validation ∧ applyState L f = f := by
  have hplc := canonicalize_perm L
  have hdef' : (canonicalize L).length ≠ f.Dimensions.length ∨
      (∃ p ∈ canonicalize L, p.Name ∉ f.Dimensions) ∨
      (∃ d ∈ f.Dimensions, ∀ p ∈ canonicalize L, p.Name ≠ d) := by
    rcases hdef with h | h | h
    · exact Or.inl (by rwa [hplc.length_eq])
    · rcases h with ⟨p, hp, hn⟩
      exact Or.inr (Or.inl ⟨p, hplc.mem_iff.mpr hp, hn⟩)
    · rcases h with ⟨d, hd, hall⟩
      exact Or.inr (Or.inr ⟨d, hd, fun p hp => hall p (hplc.mem_iff.mp hp)⟩)
  have herr := applyCounter_validation_err (find_of_lookup_none habsent)
    (validateDims_err_of_defect _ _ hdef')
  refine ⟨herr, ?_⟩
  unfold applyState
  rw [herr]

/-- C7 witness: the undeclared label `x=1` against the one-dimension family
`famA`, also a wrong-count violation. -/
theorem claim7_witness :
    mapLookup famA.childrenSet (fingerprint (canonicalize [⟨"x", "1"⟩])) = none ∧
      (applyCounter [⟨"x", "1"⟩] famA = .error Err.validation ∧
        applyState [⟨"x", "1"⟩] famA = famA) :=
  ⟨rfl, claim7_validation_failure famA [⟨"x", "1"⟩] rfl (by decide)⟩

/-- C2 (amended): on a family with no children, two sequential Apply calls for
label sets that are permutations of each other and whose size and names
exactly match the declared dimensions return the identical child (same
allocation, expressed by full equality including `uid`), and the family holds
exactly one child afterwards. -/
theorem claim2_identical_instance (f : counterFamily) (L L' : labelPairs)
    (hch : f.children = []) (hset : f.childrenSet = [])
    (hlen : L.length = f.Dimensions.length)
    (hnd : (L.map labelPair.Name).Nodup)
    (hsub : ∀ p ∈ L, p.Name ∈ f.Dimensions)
    (_hcover : ∀ d ∈ f.Dimensions, d ∈ L.map labelPair.Name)
    (hperm : List.Perm L' L) :
    ∃ c f1, applyCounter L f = .ok (c, f1) ∧ applyCounter L' f1 = .ok (c, f1) ∧
      f1.children.length = 1 := by
  have hplc := canonicalize_perm L
  have hvd : validateDims (canonicalize L) f.Dimensions = .ok () := by
    refine validateDims_ok (by rw [hplc.length_eq, hlen]) ?_ ?_
    · rwa [(hplc.map labelPair.Name).nodup_iff]
    · exact fun p hp => hsub p (hplc.mem_iff.mp hp)
  have hfind : f.find (fingerprint (canonicalize L)) = .ok none :=
    find_of_lookup_none (by rw [hset]; rfl)
  have h1 := applyCounter_miss hfind hvd
  have hch1 : (familyAfterMiss L f).children = [newChildOf L f] := by
    unfold familyAfterMiss counterFamily.registerChild
    simp [hch]
  have hset1 : (familyAfterMiss L f).childrenSet = [(fingerprint (canonicalize L), 0)] := by
    unfold familyAfterMiss counterFamily.registerChild
    simp [hch, hset]
    rfl
  have hcanon' : canonicalize L' = canonicalize L := canonicalize_of_perm hperm
  have hfind1 : (familyAfterMiss L f).find (fingerprint (canonicalize L')) =
      .ok (some (newChildOf L f)) := by
    unfold counterFamily.find
    rw [hcanon', hset1]
    have hlk : mapLookup [(fingerprint (canonicalize L), 0)] (fingerprint (canonicalize L)) =
        some 0 := by
      simp [mapLookup]
    rw [hlk, hch1]
    rfl
  have h2 := applyCounter_hit (L := L') hfind1
  exact ⟨newChildOf L f, familyAfterMiss L f, h1, h2, by rw [hch1]; rfl⟩

/-- C2 witness: the two-dimension family `famW` and the two insertion orders of
the label set `a=x, b=y`. -/
theorem claim2_witness :
    List.Perm ([⟨"a", "x"⟩, ⟨"b", "y"⟩] : labelPairs) [⟨"b", "y"⟩, ⟨"a", "x"⟩] ∧
      (∃ c f1, applyCounter [⟨"b", "y"⟩, ⟨"a", "x"⟩] famW = .ok (c, f1) ∧
        applyCounter [⟨"a", "x"⟩, ⟨"b", "y"⟩] f1 = .ok (c, f1) ∧
        f1.children.length = 1) :=
  ⟨List.Perm.swap (⟨"b", "y"⟩ : labelPair) ⟨"a", "x"⟩ [],
    claim2_identical_instance famW [⟨"b", "y"⟩, ⟨"a", "x"⟩] [⟨"a", "x"⟩, ⟨"b", "y"⟩]
      rfl rfl rfl (by decide) (by decide) (by decide)
      (List.Perm.swap (⟨"b", "y"⟩ : labelPair) ⟨"a", "x"⟩ [])⟩

/-- C2 counterexample: on a family that already holds the child `a=z`, two
Apply calls for `a=x` return the identical new child, but the family's child
count after both calls is 2, not 1 as the claim states for every family. -/
theorem claim2_counterexample :
    (∃ c, applyCounter [⟨"a", "x"⟩] stPre = .ok (c, stPre1) ∧
      applyCounter [⟨"a", "x"⟩] stPre1 = .ok (c, stPre1)) ∧
      stPre1.children.length = 2 ∧ stPre1.children.length ≠ 1 :=
  ⟨⟨newChildOf [⟨"a", "x"⟩] stPre, rfl, rfl⟩, rfl, by decide⟩

/-- C6: once a family built by the constructor is registered, registering a
second constructor-built family with the same derived name panics with an
InvariantViolation and leaves the registry (families and index) unchanged. -/
theorem claim6_duplicate_register (o₁ o₂ : CounterOptions) (f₁ f₂ : counterFamily)
    (r r' : registry)
    (h₁ : newCounterFamily o₁ = .ok f₁) (h₂ : newCounterFamily o₂ = .ok f₂)
    (_hname : o₂.metric.deriveName = o₁.metric.deriveName)
    (hreg : r.registerFam f₁.regView = .ok r') :
    r'.registerFam f₂.regView = .error Err.invariant ∧
      registerState r' f₂.regView = r' := by
  have hf₁ : f₁.fp = 0 := newCounterFamily_fp h₁
  have hf₂ : f₂.fp = 0 := newCounterFamily_fp h₂
  obtain ⟨hlk, hfam, hset⟩ := registerFam_ok hreg
  have hmem : f₁.regView ∈ List.insertionSort famLe (r.families ++ [f₁.regView]) := by
    rw [List.mem_insertionSort]
    exact List.mem_append_right _ (List.mem_singleton.mpr rfl)
  obtain ⟨i, hi⟩ := exists_enumFrom_entry _ _ 0 hmem
  have hsome : (mapLookup r'.familiesSet f₂.regView.fp).isSome := by
    rw [hset]
    refine foldStore_isSome_of_mem _ _ _ ⟨(i, f₁.regView), hi, ?_⟩
    show f₁.regView.fp = f₂.regView.fp
    show f₁.fp = f₂.fp
    rw [hf₁, hf₂]
  obtain ⟨v, hv⟩ := Option.isSome_iff_exists.mp hsome
  have herr : r'.registerFam f₂.regView = .error Err.invariant := by
    unfold registry.registerFam
    rw [hv]
  refine ⟨herr, ?_⟩
  unfold registerState
  rw [herr]

/-- C6 witness: registering two families derived from `optsNs` (both named
`a_b`) into a fresh registry. -/
theorem claim6_witness :
    newCounterFamily optsNs = .ok famNsVal ∧
      newRegistry.registerFam famNsVal.regView = .ok regVal ∧
      (regVal.registerFam famNsVal.regView = .error Err.invariant ∧
        registerState regVal famNsVal.regView = regVal) :=
  ⟨rfl, rfl,
    claim6_duplicate_register optsNs optsNs famNsVal famNsVal newRegistry regVal
      rfl rfl rfl rfl⟩

/-- C1 evaluated at its failing input: `famA` holds the two children `a=1`
(position 0) and `a=2` (position 1); forgetting the fingerprint of the child
at the last position leaves 0 children, not the 1 child the claim requires
(`children[:index-1]` drops two elements). -/
theorem claim1_forget_eval :
    stA2.children.length = 2 ∧ mapLookup stA2.childrenSet fpA2 = some 1 ∧
      ∃ f3, stA2.forget fpA2 = .ok f3 ∧ f3.children.length = 0 :=
  ⟨rfl, rfl, ⟨_, rfl, rfl⟩⟩

/-- C4 evaluated at a violating run: after registering `a=1`, `a=2` and
forgetting `a=1` (position 0), one child survives but the index still maps the
survivor's fingerprint to position 1, which no longer exists, so `find`
panics: the index is not consistent with current positions. -/
theorem claim4_invariant_eval :
    ∃ f3, stA2.forget fpA1 = .ok f3 ∧ f3.children.length = 1 ∧
      mapLookup f3.childrenSet fpA2 = some 1 ∧
      f3.find fpA2 = .error Err.outOfRange :=
  ⟨_, rfl, rfl, rfl, rfl⟩

/-- C5 evaluated at its failing input: the equal-length label sets
`l = [a=x, b=y]` and `o = [a=y, b=x]` (both canonical, same dimension set)
first differ at index 0, where `l`'s pair is strictly less, yet the code
returns true for both `l.Before(o)` and `o.Before(l)`: the comparison is not
determined by the first differing index and is not asymmetric. -/
theorem claim5_before_eval :
    labelPair.Before ⟨"a", "x"⟩ ⟨"a", "y"⟩ = true ∧
      isSortedPairs [⟨"a", "x"⟩, ⟨"b", "y"⟩] = true ∧
      isSortedPairs [⟨"a", "y"⟩, ⟨"b", "x"⟩] = true ∧
      pairsBefore [⟨"a", "x"⟩, ⟨"b", "y"⟩] [⟨"a", "y"⟩, ⟨"b", "x"⟩] = true ∧
      pairsBefore [⟨"a", "y"⟩, ⟨"b", "x"⟩] [⟨"a", "x"⟩, ⟨"b", "y"⟩] = true :=
  ⟨rfl, rfl, rfl, rfl, rfl⟩

/-- C8: for every counter family the line-text dump emits exactly one line per
child, of the form `<family-name>\x7b<label=value pairs, comma-joined>\x7d: <value
in fixed-point>`; in particular the family built from `optsR` (name
`requests`, dimension `method`, default 0), given the child `method=GET`
through `NewChild`/`Apply` and `IncrementBy(5)`, dumps the single line
`requests\x7bmethod=GET\x7d: 5.000000`. -/
theorem claim8_dump_line :
    (∀ f : counterFamily, counterFamily.dumpTextStr f =
      String.join (f.children.map fun c =>
        f.name ++ "\x7b" ++ labelPairsString c.Labels ++ "\x7d: " ++
          formatFixed6 c.Value ++ "\n")) ∧
      newCounterFamily optsR = .ok famR ∧
      newChildPairs ["method", "GET"] = .ok [⟨"method", "GET"⟩] ∧
      applyCounter [⟨"method", "GET"⟩] famR = .ok (cR, famR1) ∧
      famR2.children.length = 1 ∧
      counterFamily.dumpTextStr famR2 = "requests\x7bmethod=GET\x7d: 5.000000\n" := by
  refine ⟨dumpTextStr_lines, rfl, rfl, rfl, rfl, ?_⟩
  have hch : famR2.children =
      [{ Labels := [⟨"method", "GET"⟩], Value := (0 : ℚ) + 5,
         fingerprint := fingerprint (canonicalize [⟨"method", "GET"⟩]), uid := 0 }] := rfl
  have hval : (0 : ℚ) + 5 = 5 := by norm_num
  rw [hval] at hch
  unfold counterFamily.dumpTextStr
  rw [hch]
  rfl

/-- C9: the fingerprint feeds names and values with no separator, so the two
distinct canonical label sets `ab=c` and `a=bc` collide, and applying the
second on a family that holds the first returns the first's instance (and
leaves the family unchanged), skipping validation. -/
theorem claim9_fingerprint_collision :
    ([⟨"ab", "c"⟩] : labelPairs) ≠ [⟨"a", "bc"⟩] ∧
      isSortedPairs [⟨"ab", "c"⟩] = true ∧ isSortedPairs [⟨"a", "bc"⟩] = true ∧
      fingerprint [⟨"ab", "c"⟩] = fingerprint [⟨"a", "bc"⟩] ∧
      ∃ c f1, applyCounter [⟨"ab", "c"⟩] famAB = .ok (c, f1) ∧
        applyCounter [⟨"a", "bc"⟩] f1 = .ok (c, f1) :=
  ⟨by decide, rfl, rfl, rfl,
    ⟨newChildOf [⟨"ab", "c"⟩] famAB, familyAfterMiss [⟨"ab", "c"⟩] famAB, rfl, rfl⟩⟩

/-- C10: two distinct option sets (Namespace `a` + Name `b` versus Subsystem
`a` + Name `b`) derive the same family name `a_b`; registering both families
in one registry panics with the duplicate-registration invariant violation on
the second, leaving the registry unchanged. -/
theorem claim10_derived_name_collision :
    optsNs.metric.deriveName = "a_b" ∧ optsSub.metric.deriveName = "a_b" ∧
      optsNs ≠ optsSub ∧
      ∃ f1 f2 r1, newCounterFamily optsNs = .ok f1 ∧
        newCounterFamily optsSub = .ok f2 ∧
        newRegistry.registerFam f1.regView = .ok r1 ∧
        r1.registerFam f2.regView = .error Err.invariant ∧
        registerState r1 f2.regView = r1 :=
  ⟨rfl, rfl, by decide, ⟨famNsVal, famNsVal, regVal, rfl, rfl, rfl, rfl, rfl⟩⟩

end ClientGolang
